import Mathlib

/-!
Shallow embedding of the core rendering pipeline of the
`embedded-graphics-simulator` repository: color themes (`src/theme.rs`),
output settings and their builder (`src/output_settings.rs`), the simulator
display (`src/display.rs`) and the output image rasterizer
(`src/output_image.rs`).

Machine integers (`u32`, `u8`, `i32`) are modelled as `Nat`/`Int`; wrapping
is made explicit with `% 2 ^ 32` where the source arithmetic can overflow.
Panicking operations are modelled with `Option`/`Except`.
-/

namespace EgSim

/-- Model of `embedded_graphics::geometry::Point` (two `i32` coordinates). -/
structure Point where
  x : Int
  y : Int
deriving DecidableEq

/-- Model of `embedded_graphics::geometry::Size` (two `u32` components). -/
structure Size where
  width : Nat
  height : Nat
deriving DecidableEq

/-- Model of `embedded_graphics::pixelcolor::Rgb888`: an 8-bit-per-channel
RGB color. Channel values of real `Rgb888` values lie below 256. -/
structure Rgb888 where
  r : Nat
  g : Nat
  b : Nat
deriving DecidableEq

/-- Mirror of `Rgb888::new`. -/
def Rgb888.new (r g b : Nat) : Rgb888 := ⟨r, g, b⟩

/-- Mirror of `Rgb888::BLACK`. -/
def Rgb888.BLACK : Rgb888 := ⟨0, 0, 0⟩

/-- Mirror of `Rgb888::WHITE`. -/
def Rgb888.WHITE : Rgb888 := ⟨255, 255, 255⟩

/-- Model of `BinaryColorTheme` from `src/theme.rs`. -/
inductive BinaryColorTheme where
  | Default
  | Inverted
  | LcdWhite
  | LcdGreen
  | LcdBlue
  | OledWhite
  | OledBlue
  | Custom (color_off color_on : Rgb888)
deriving DecidableEq

/-- Model of the free function `map_color` in `src/theme.rs`: the Rust
`match` on the `Rgb888::BLACK` pattern is an equality test. -/
def map_color (color color_off color_on : Rgb888) : Rgb888 :=
  if color = Rgb888.BLACK then color_off else color_on

/-- Model of `BinaryColorTheme::convert` from `src/theme.rs`. The
`Inverted` arm computes `255 - channel` on `u8` channels; for real colors
(channels below 256) `Nat` subtraction agrees with the `u8` subtraction. -/
def BinaryColorTheme.convert : BinaryColorTheme → Rgb888 → Rgb888
  | .Default, color => color
  | .Custom color_off color_on, color => map_color color color_off color_on
  | .Inverted, color => Rgb888.new (255 - color.r) (255 - color.g) (255 - color.b)
  | .LcdWhite, color => map_color color (Rgb888.new 245 245 245) (Rgb888.new 32 32 32)
  | .LcdGreen, color => map_color color (Rgb888.new 120 185 50) (Rgb888.new 32 32 32)
  | .LcdBlue, color => map_color color (Rgb888.new 70 80 230) (Rgb888.new 230 230 255)
  | .OledBlue, color => map_color color (Rgb888.new 0 20 40) (Rgb888.new 0 210 255)
  | .OledWhite, color => map_color color (Rgb888.new 20 20 20) Rgb888.WHITE

/-- Modulus of the Rust `u32` type. -/
def U32_MOD : Nat := 2 ^ 32

/-- Model of `OutputSettings` from `src/output_settings.rs`. -/
structure OutputSettings where
  scale : Nat
  pixel_spacing : Nat
  theme : BinaryColorTheme
  max_fps : Nat

/-- Model of `OutputSettings::framebuffer_size`: per axis the source
computes `width * scale + width.saturating_sub(1) * pixel_spacing` on
`u32`; each multiplication and the addition wrap modulo `2 ^ 32`, and
`saturating_sub` is `Nat` subtraction. -/
def OutputSettings.framebuffer_size (s : OutputSettings) (displaySize : Size) : Size :=
  let width := displaySize.width
  let height := displaySize.height
  let output_width :=
    (width * s.scale % U32_MOD + (width - 1) * s.pixel_spacing % U32_MOD) % U32_MOD
  let output_height :=
    (height * s.scale % U32_MOD + (height - 1) * s.pixel_spacing % U32_MOD) % U32_MOD
  ⟨output_width, output_height⟩

/-- Model of `OutputSettingsBuilder` from `src/output_settings.rs`. -/
structure OutputSettingsBuilder where
  scale : Option Nat
  pixel_spacing : Option Nat
  theme : BinaryColorTheme
  max_fps : Option Nat

/-- Mirror of `OutputSettingsBuilder::new`. -/
def OutputSettingsBuilder.new : OutputSettingsBuilder :=
  ⟨none, none, BinaryColorTheme.Default, none⟩

/-- Model of `OutputSettingsBuilder::scale`; the `assert!(scale > 0)` panic
is modelled by `Except.error`. (Named `setScale` because the field is
already called `scale`.) -/
def OutputSettingsBuilder.setScale (b : OutputSettingsBuilder) (scale : Nat) :
    Except String OutputSettingsBuilder :=
  if scale > 0 then
    .ok { b with scale := some scale }
  else
    .error "scale must be > 0"

/-- Model of `OutputSettingsBuilder::theme`: stores the theme and applies
`get_or_insert(3)` / `get_or_insert(1)` to `scale` / `pixel_spacing`. -/
def OutputSettingsBuilder.setTheme (b : OutputSettingsBuilder) (theme : BinaryColorTheme) :
    OutputSettingsBuilder :=
  { b with
    theme := theme
    scale := some (b.scale.getD 3)
    pixel_spacing := some (b.pixel_spacing.getD 1) }

/-- Model of `OutputSettingsBuilder::pixel_spacing`. -/
def OutputSettingsBuilder.setPixelSpacing (b : OutputSettingsBuilder) (pixel_spacing : Nat) :
    OutputSettingsBuilder :=
  { b with pixel_spacing := some pixel_spacing }

/-- Model of `OutputSettingsBuilder::max_fps`. -/
def OutputSettingsBuilder.setMaxFps (b : OutputSettingsBuilder) (max_fps : Nat) :
    OutputSettingsBuilder :=
  { b with max_fps := some max_fps }

/-- Model of `OutputSettingsBuilder::build`. -/
def OutputSettingsBuilder.build (b : OutputSettingsBuilder) : OutputSettings :=
  ⟨b.scale.getD 1, b.pixel_spacing.getD 0, b.theme, b.max_fps.getD 60⟩

/-- One call on an `OutputSettingsBuilder`, for reasoning about arbitrary
sequences of setter calls. -/
inductive BuilderOp where
  | opScale (s : Nat)
  | opPixelSpacing (sp : Nat)
  | opTheme (t : BinaryColorTheme)
  | opMaxFps (fps : Nat)

/-- Applies one builder call; a panicking call is an `Except.error`. -/
def applyOp (b : OutputSettingsBuilder) : BuilderOp → Except String OutputSettingsBuilder
  | .opScale s => b.setScale s
  | .opPixelSpacing sp => .ok (b.setPixelSpacing sp)
  | .opTheme t => .ok (b.setTheme t)
  | .opMaxFps f => .ok (b.setMaxFps f)

/-- Applies a sequence of builder calls, stopping at the first panic. -/
def applyOps (b : OutputSettingsBuilder) : List BuilderOp → Except String OutputSettingsBuilder
  | [] => .ok b
  | op :: ops =>
    match applyOp b op with
    | .ok b1 => applyOps b1 ops
    | .error e => .error e

/-- Invariant maintained by every builder operation: the `scale` field is
either unset or holds a positive value. -/
def scaleInv (b : OutputSettingsBuilder) : Prop :=
  ∀ s, b.scale = some s → 1 ≤ s

/-- Model of `embedded_graphics::primitives::Rectangle`. -/
structure Rectangle where
  top_left : Point
  size : Size
deriving DecidableEq

/-- Componentwise maximum of two points (embedded-graphics `component_max`). -/
def Point.component_max (a b : Point) : Point := ⟨max a.x b.x, max a.y b.y⟩

/-- Componentwise minimum of two points (embedded-graphics `component_min`). -/
def Point.component_min (a b : Point) : Point := ⟨min a.x b.x, min a.y b.y⟩

/-- Modelled from the embedded-graphics dependency (`Rectangle::bottom_right`):
the bottom-right corner, or `none` for a zero-sized rectangle. -/
def Rectangle.bottom_right (r : Rectangle) : Option Point :=
  if r.size.width = 0 ∨ r.size.height = 0 then none
  else some ⟨r.top_left.x + (r.size.width : Int) - 1, r.top_left.y + (r.size.height : Int) - 1⟩

/-- Modelled from the embedded-graphics dependency (`Rectangle::intersection`):
the overlap of two rectangles, or a zero-sized rectangle when they do not
overlap or one of them is zero-sized. -/
def Rectangle.intersection (r other : Rectangle) : Rectangle :=
  match r.bottom_right, other.bottom_right with
  | some br1, some br2 =>
    let top_left := r.top_left.component_max other.top_left
    let bottom_right := br1.component_min br2
    if top_left.x ≤ bottom_right.x ∧ top_left.y ≤ bottom_right.y then
      ⟨top_left, ⟨(bottom_right.x - top_left.x + 1).toNat, (bottom_right.y - top_left.y + 1).toNat⟩⟩
    else
      ⟨r.top_left.component_max other.top_left, ⟨0, 0⟩⟩
  | _, _ => ⟨r.top_left.component_max other.top_left, ⟨0, 0⟩⟩

/-- Modelled from the embedded-graphics dependency (`Rectangle::rows`): the
`y` coordinates covered by the rectangle, in increasing order. -/
def Rectangle.rows (r : Rectangle) : List Int :=
  (List.range r.size.height).map (fun (i : Nat) => r.top_left.y + (i : Int))

/-- Modelled from the embedded-graphics dependency (`Rectangle::points`):
all points of the rectangle in row-major order. -/
def Rectangle.points (r : Rectangle) : List Point :=
  ((List.range r.size.height).map (fun (iy : Nat) =>
    (List.range r.size.width).map (fun (ix : Nat) =>
      Point.mk (r.top_left.x + (ix : Int)) (r.top_left.y + (iy : Int))))).flatten

/-- Model of `SimulatorDisplay` from `src/display.rs`: a size and a
row-major pixel buffer. -/
structure SimulatorDisplay (C : Type) where
  size : Size
  pixels : List C

/-- Well-formedness invariant of every display the source can construct:
the buffer holds exactly `width * height` pixels. -/
def SimulatorDisplay.wf {C : Type} (d : SimulatorDisplay C) : Prop :=
  d.pixels.length = d.size.width * d.size.height

/-- Mirror of `SimulatorDisplay::with_default_color`. -/
def SimulatorDisplay.with_default_color {C : Type} (size : Size) (default_color : C) :
    SimulatorDisplay C :=
  ⟨size, List.replicate (size.width * size.height) default_color⟩

/-- Model of `SimulatorDisplay::point_to_index`: `Some` index for in-bounds
points, `None` otherwise. -/
def SimulatorDisplay.point_to_index {C : Type} (d : SimulatorDisplay C) (point : Point) :
    Option Nat :=
  if 0 ≤ point.x ∧ 0 ≤ point.y ∧
      point.x.toNat < d.size.width ∧ point.y.toNat < d.size.height then
    some (point.x.toNat + point.y.toNat * d.size.width)
  else
    none

/-- Model of `SimulatorDisplay::get_pixel`; the out-of-bounds panic is
modelled as `none`. -/
def SimulatorDisplay.get_pixel? {C : Type} (d : SimulatorDisplay C) (point : Point) : Option C :=
  (d.point_to_index point).bind (fun index => d.pixels[index]?)

/-- Mirror of `SimulatorDisplay::bounding_box` (via `OriginDimensions`). -/
def SimulatorDisplay.bounding_box {C : Type} (d : SimulatorDisplay C) : Rectangle :=
  ⟨⟨0, 0⟩, d.size⟩

/-- Model of `<SimulatorDisplay as DrawTarget>::draw_iter` from
`src/display.rs`: in-bounds pairs overwrite the stored pixel in iteration
order, out-of-bounds pairs are dropped. -/
def SimulatorDisplay.draw_iter {C : Type} (d : SimulatorDisplay C)
    (pixels : List (Point × C)) : SimulatorDisplay C :=
  pixels.foldl (fun acc pc =>
    match acc.point_to_index pc.1 with
    | some index => ⟨acc.size, acc.pixels.set index pc.2⟩
    | none => acc) d

/-- Model of `SimulatorDisplay::diff` from `src/display.rs`. The size
assertion and the (unreachable for well-formed displays) `get_pixel` panic
are modelled as `Except.error`; `BinaryColor` is modelled as `Bool` with
`On = true`. -/
def SimulatorDisplay.diff {C : Type} [DecidableEq C] (d other : SimulatorDisplay C) :
    Except String (Option (SimulatorDisplay Bool)) :=
  if d.size = other.size then
    match d.bounding_box.points.mapM (fun p =>
        (d.get_pixel? p).bind (fun a =>
          (other.get_pixel? p).map (fun b => decide (a ≠ b)))) with
    | some pixels =>
      if pixels.any id then .ok (some ⟨d.size, pixels⟩) else .ok none
    | none => .error "cannot get point outside of display"
  else
    .error "both displays must have the same size"

/-- Fuel-indexed body of `listChunks` (structural recursion so that the
kernel can evaluate it). -/
def chunksGo {α : Type} (n : Nat) : Nat → List α → List (List α)
  | _, [] => []
  | 0, _ :: _ => []
  | fuel + 1, x :: xs => (x :: xs).take n :: chunksGo n fuel ((x :: xs).drop n)

/-- Model of Rust `slice::chunks(n)` for `n ≥ 1`: splits a list into
consecutive chunks of `n` elements, the last chunk possibly shorter. -/
def listChunks {α : Type} (n : Nat) (l : List α) : List (List α) :=
  chunksGo n l.length l

/-- The per-byte packing loop of `SimulatorDisplay::to_bytes` (the body of
the `byte_pixels` loop in `src/display.rs`): shift-accumulate each raw
pixel in order (`u8` shifts wrap modulo 256), then shift once more to pad
a partial final group. Below 8 bits the per-pixel `to_be_bytes()[0]` of a
raw value is the raw value itself. -/
def packByteCode (bits_per_pixel pixels_per_byte : Nat) (byte_pixels : List Nat) : Nat :=
  ((byte_pixels.foldl
      (fun value pixel => ((value <<< bits_per_pixel) % 256) ||| pixel) 0)
    <<< (bits_per_pixel * (pixels_per_byte - byte_pixels.length))) % 256

/-- Specification packer, written from the spec's words for the refinement
comparison in C2 (never used by the code model): within one output byte
the leftmost pixel occupies the most significant `bits_per_pixel` slot,
later pixels follow towards the low end, and a missing final pixel leaves
its low-order bits zero. -/
def packByteSpec (bits_per_pixel pixels_per_byte : Nat) : List Nat → Nat
  | [] => 0
  | pixel :: rest =>
    pixel * 2 ^ (bits_per_pixel * (pixels_per_byte - 1)) +
      packByteSpec bits_per_pixel (pixels_per_byte - 1) rest

/-- The numeric value accumulated so far by the packing loop: the leftmost
pixel carries the highest remaining place value. -/
def packChunkVal (bits_per_pixel : Nat) : List Nat → Nat
  | [] => 0
  | pixel :: rest =>
    pixel * 2 ^ (bits_per_pixel * rest.length) + packChunkVal bits_per_pixel rest

/-- Model of `SimulatorDisplay::to_bytes` from `src/display.rs` for a
display whose pixels are raw values (`Nat` below `2 ^ bits_per_pixel`).
For bit widths of at least 8, each pixel is serialized by the supplied
per-pixel function; below 8 bits, each row is chunked into groups of
`8 / bits_per_pixel` pixels and each group is packed into one byte by
`packByteCode`. -/
def SimulatorDisplay.to_bytes (d : SimulatorDisplay Nat) (bits_per_pixel : Nat)
    (pixel_to_bytes : Nat → List Nat) : List Nat :=
  if 8 ≤ bits_per_pixel then
    (d.pixels.map pixel_to_bytes).flatten
  else
    let pixels_per_byte := 8 / bits_per_pixel
    ((listChunks d.size.width d.pixels).map (fun row =>
      (listChunks pixels_per_byte row).map
        (packByteCode bits_per_pixel pixels_per_byte))).flatten

/-- Big-endian per-pixel serialization of a raw value: `bits / 8` bytes,
most significant first (one byte below 8 bits). -/
def beBytesOfRaw (bits_per_pixel raw : Nat) : List Nat :=
  if bits_per_pixel < 8 then [raw % 256]
  else (List.range (bits_per_pixel / 8)).map (fun i =>
    (raw >>> (8 * (bits_per_pixel / 8 - 1 - i))) % 256)

/-- Little-endian per-pixel serialization of a raw value. -/
def leBytesOfRaw (bits_per_pixel raw : Nat) : List Nat :=
  (beBytesOfRaw bits_per_pixel raw).reverse

/-- Native-endian per-pixel serialization (little-endian host). -/
def neBytesOfRaw (bits_per_pixel raw : Nat) : List Nat :=
  leBytesOfRaw bits_per_pixel raw

/-- Mirror of `SimulatorDisplay::to_be_bytes`. -/
def SimulatorDisplay.to_be_bytes (d : SimulatorDisplay Nat) (bits_per_pixel : Nat) : List Nat :=
  d.to_bytes bits_per_pixel (beBytesOfRaw bits_per_pixel)

/-- Mirror of `SimulatorDisplay::to_le_bytes`. -/
def SimulatorDisplay.to_le_bytes (d : SimulatorDisplay Nat) (bits_per_pixel : Nat) : List Nat :=
  d.to_bytes bits_per_pixel (leBytesOfRaw bits_per_pixel)

/-- Mirror of `SimulatorDisplay::to_ne_bytes`. -/
def SimulatorDisplay.to_ne_bytes (d : SimulatorDisplay Nat) (bits_per_pixel : Nat) : List Nat :=
  d.to_bytes bits_per_pixel (neBytesOfRaw bits_per_pixel)

/-- One-row 1-bit display of width 9 with the pattern `[1,0,0,0,0,0,0,1,0]`. -/
def d91 : SimulatorDisplay Nat := ⟨⟨9, 1⟩, [1, 0, 0, 0, 0, 0, 0, 1, 0]⟩

/-- Two-row 1-bit display of width 9, each row `[1,0,0,0,0,0,0,1,0]`. -/
def d92 : SimulatorDisplay Nat :=
  ⟨⟨9, 2⟩, [1, 0, 0, 0, 0, 0, 0, 1, 0, 1, 0, 0, 0, 0, 0, 0, 1, 0]⟩

/-- One-row 1-bit display of width 9 with the asymmetric pattern
`[1,1,0,0,0,0,0,1,1]`: its full byte is not a palindrome and its partial
byte is non-zero, so its serialization separates most-significant-first
low-padded packing from the least-significant-first high-padded
alternative. -/
def d93 : SimulatorDisplay Nat := ⟨⟨9, 1⟩, [1, 1, 0, 0, 0, 0, 0, 1, 1]⟩

/-- The output image byte buffer, as a total map from byte index to byte
value. -/
def ByteBuf : Type := Nat → Nat

/-- Copying the byte list `bs` into the buffer starting at index `start`
(Rust `copy_from_slice` into a subslice). -/
def writeSlice (d : ByteBuf) (start : Nat) (bs : List Nat) : ByteBuf :=
  fun i => if start ≤ i ∧ i < start + bs.length then bs.getD (i - start) 0 else d i

/-- Mirror of `Rgb888`'s `ToBytes::to_be_bytes`: the three bytes
`r, g, b`. -/
def Rgb888.to_be_bytes (c : Rgb888) : List Nat := [c.r, c.g, c.b]

/-- Model of `OutputImage<Rgb888>` from `src/output_image.rs`: the raster
size and the 3-bytes-per-pixel data buffer. -/
structure OutputImage where
  size : Size
  data : ByteBuf

/-- Mirror of `OutputImage::new`: a zeroed buffer. -/
def OutputImage.new (size : Size) : OutputImage := ⟨size, fun _ => 0⟩

/-- Mirror of `OutputImage`'s bounding box (via `OriginDimensions`). -/
def OutputImage.bounding_box (img : OutputImage) : Rectangle := ⟨⟨0, 0⟩, img.size⟩

/-- One iteration of `<OutputImage<Rgb888> as DrawTarget>::draw_iter`: an
in-bounds pixel writes its three big-endian bytes at byte index
`(x + y * width) * 3`; an out-of-bounds pixel is skipped. -/
def drawStep (sz : Size) (d : ByteBuf) (pc : Point × Rgb888) : ByteBuf :=
  if 0 ≤ pc.1.x ∧ 0 ≤ pc.1.y ∧ pc.1.x.toNat < sz.width ∧ pc.1.y.toNat < sz.height then
    writeSlice d ((pc.1.x.toNat + pc.1.y.toNat * sz.width) * 3) pc.2.to_be_bytes
  else
    d

/-- Model of `<OutputImage<Rgb888> as DrawTarget>::draw_iter` from
`src/output_image.rs`. -/
def OutputImage.draw_iter (img : OutputImage) (pixels : List (Point × Rgb888)) : OutputImage :=
  ⟨img.size, pixels.foldl (drawStep img.size) img.data⟩

/-- Model of `<OutputImage<Rgb888> as DrawTarget>::fill_solid` from
`src/output_image.rs`: the area is clipped to the image bounds; when the
clipped area is at least 16×16 a row buffer holding `width` copies of the
color bytes is built once and copied into each destination row, otherwise
the three color bytes are copied into each 3-byte chunk of each row. -/
def OutputImage.fill_solid (img : OutputImage) (area : Rectangle) (color : Rgb888) :
    OutputImage :=
  let area := area.intersection img.bounding_box
  let bytes := color.to_be_bytes
  let large := 16 ≤ area.size.width ∧ 16 ≤ area.size.height
  let row_buffer := (List.replicate area.size.width bytes).flatten
  let bytes_per_row := img.size.width * 3
  let x_start := area.top_left.x.toNat * 3
  let data :=
    if large then
      area.rows.foldl
        (fun d y => writeSlice d (bytes_per_row * y.toNat + x_start) row_buffer) img.data
    else
      area.rows.foldl
        (fun d y =>
          (List.range area.size.width).foldl
            (fun d k => writeSlice d (bytes_per_row * y.toNat + x_start + 3 * k) bytes) d)
        img.data
  ⟨img.size, data⟩

/-- Model of `OutputImage::draw_display` from `src/output_image.rs`, for a
source display whose pixels are already `Rgb888` (so `Into<Rgb888>` is the
identity). The display area uses `display.output_size(output_settings)`,
whose definition is not under `src/`; modelled from the spec: the output
raster size is `width*scale + max(width-1,0)*spacing` per axis, which is
exactly `framebuffer_size`. The (unreachable for well-formed displays)
`get_pixel` panic is modelled as `none`. -/
def OutputImage.draw_display (img : OutputImage) (display : SimulatorDisplay Rgb888)
    (position : Point) (s : OutputSettings) : Option OutputImage :=
  let display_area : Rectangle := ⟨position, s.framebuffer_size display.size⟩
  let img := img.fill_solid display_area (s.theme.convert Rgb888.BLACK)
  if s.scale = 1 then
    (display.bounding_box.points.mapM (fun p =>
      (display.get_pixel? p).map (fun raw =>
        (Point.mk (p.x + position.x) (p.y + position.y), s.theme.convert raw)))).map
      (fun pixels => img.draw_iter pixels)
  else
    let pixel_pitch : Int := ((s.scale + s.pixel_spacing : Nat) : Int)
    display.bounding_box.points.foldlM (fun img p =>
      (display.get_pixel? p).map (fun raw =>
        img.fill_solid
          ⟨⟨p.x * pixel_pitch + position.x, p.y * pixel_pitch + position.y⟩,
           ⟨s.scale, s.scale⟩⟩
          (s.theme.convert raw)))
      img

/-- Reads back one pixel of an `OutputImage` from its byte buffer. -/
def OutputImage.readPixel (img : OutputImage) (x y : Nat) : Rgb888 :=
  ⟨img.data ((x + y * img.size.width) * 3),
   img.data ((x + y * img.size.width) * 3 + 1),
   img.data ((x + y * img.size.width) * 3 + 2)⟩

/-- A 2×1 all-white `Rgb888` display. -/
def d21 : SimulatorDisplay Rgb888 := ⟨⟨2, 1⟩, [Rgb888.WHITE, Rgb888.WHITE]⟩

/-- Output settings with scale 1, pixel spacing 1, theme `Default`. -/
def s11 : OutputSettings := ⟨1, 1, BinaryColorTheme.Default, 60⟩

theorem scaleInv_new : scaleInv OutputSettingsBuilder.new := by
  intro s h
  simp [OutputSettingsBuilder.new] at h

theorem scaleInv_applyOp {b b' : OutputSettingsBuilder} {op : BuilderOp}
    (hb : scaleInv b) (h : applyOp b op = .ok b') : scaleInv b' := by
  cases op with
  | opScale s =>
    simp only [applyOp, OutputSettingsBuilder.setScale] at h
    split at h
    · cases h
      intro s' hs'
      simp at hs'
      omega
    · cases h
  | opPixelSpacing sp =>
    cases h
    intro s' hs'
    exact hb s' hs'
  | opTheme t =>
    cases h
    intro s' hs'
    simp only [OutputSettingsBuilder.setTheme] at hs'
    cases hscale : b.scale with
    | none => simp [hscale, Option.getD] at hs'; omega
    | some v =>
      simp [hscale, Option.getD] at hs'
      have := hb v hscale
      omega
  | opMaxFps f =>
    cases h
    intro s' hs'
    exact hb s' hs'

theorem scaleInv_applyOps {b b' : OutputSettingsBuilder} {ops : List BuilderOp}
    (hb : scaleInv b) (h : applyOps b ops = .ok b') : scaleInv b' := by
  induction ops generalizing b with
  | nil =>
    simp only [applyOps] at h
    cases h
    exact hb
  | cons op ops ih =>
    simp only [applyOps] at h
    cases hop : applyOp b op with
    | error e => rw [hop] at h; cases h
    | ok b1 =>
      rw [hop] at h
      exact ih (scaleInv_applyOp hb hop) h

/-- Claim C8: `BinaryColorTheme::Default.convert(c) == c` for every color
`c`, and `BinaryColorTheme::Inverted.convert(c) == Rgb888::new(255 - c.r(),
255 - c.g(), 255 - c.b())` for every color `c`. -/
theorem C8_theme_default_inverted :
    (∀ c : Rgb888, BinaryColorTheme.Default.convert c = c) ∧
    (∀ c : Rgb888, BinaryColorTheme.Inverted.convert c =
      Rgb888.new (255 - c.r) (255 - c.g) (255 - c.b)) :=
  ⟨fun _ => rfl, fun _ => rfl⟩

/-- Claim C3, counterexample: for the `Default` theme there is no fixed
pair of colors `cOff`/`cOn` such that `convert` maps black to `cOff` and
every non-black color to `cOn` — `Default.convert` is the identity, so the
two distinct non-black inputs `(1,0,0)` and `(2,0,0)` have distinct
outputs. -/
theorem C3_counterexample :
    ¬ ∃ cOff cOn : Rgb888, ∀ c : Rgb888,
      BinaryColorTheme.Default.convert c =
        (if c = Rgb888.BLACK then cOff else cOn) := by
  rintro ⟨cOff, cOn, h⟩
  have h1 := h (Rgb888.new 1 0 0)
  have h2 := h (Rgb888.new 2 0 0)
  simp only [BinaryColorTheme.convert] at h1 h2
  rw [if_neg (by decide)] at h1
  rw [if_neg (by decide)] at h2
  exact absurd (h1.trans h2.symm) (by decide)

/-- Claim C3, amended: only the five fixed-palette themes (`LcdWhite`,
`LcdGreen`, `LcdBlue`, `OledWhite`, `OledBlue`) are binary black/non-black
classifications with fixed off/on colors; `Default.convert` is the identity
and `Inverted.convert` inverts each channel (a gradient), so neither is
such a classification. -/
theorem C3_amended_binary_themes :
    (∃ p : Rgb888 × Rgb888, ∀ c, BinaryColorTheme.LcdWhite.convert c =
      (if c = Rgb888.BLACK then p.1 else p.2)) ∧
    (∃ p : Rgb888 × Rgb888, ∀ c, BinaryColorTheme.LcdGreen.convert c =
      (if c = Rgb888.BLACK then p.1 else p.2)) ∧
    (∃ p : Rgb888 × Rgb888, ∀ c, BinaryColorTheme.LcdBlue.convert c =
      (if c = Rgb888.BLACK then p.1 else p.2)) ∧
    (∃ p : Rgb888 × Rgb888, ∀ c, BinaryColorTheme.OledWhite.convert c =
      (if c = Rgb888.BLACK then p.1 else p.2)) ∧
    (∃ p : Rgb888 × Rgb888, ∀ c, BinaryColorTheme.OledBlue.convert c =
      (if c = Rgb888.BLACK then p.1 else p.2)) ∧
    (∀ c : Rgb888, BinaryColorTheme.Default.convert c = c) ∧
    (∀ c : Rgb888, BinaryColorTheme.Inverted.convert c =
      Rgb888.new (255 - c.r) (255 - c.g) (255 - c.b)) :=
  ⟨⟨(Rgb888.new 245 245 245, Rgb888.new 32 32 32), fun _ => rfl⟩,
   ⟨(Rgb888.new 120 185 50, Rgb888.new 32 32 32), fun _ => rfl⟩,
   ⟨(Rgb888.new 70 80 230, Rgb888.new 230 230 255), fun _ => rfl⟩,
   ⟨(Rgb888.new 20 20 20, Rgb888.WHITE), fun _ => rfl⟩,
   ⟨(Rgb888.new 0 20 40, Rgb888.new 0 210 255), fun _ => rfl⟩,
   fun _ => rfl, fun _ => rfl⟩

/-- Claim C6: for every display size and output settings whose per-axis
size computation does not overflow `u32`, the output raster size is
`width * scale + (width - 1) * pixel_spacing` horizontally (with the
`width - 1` saturating at zero) and the analogous formula vertically. -/
theorem C6_framebuffer_size (s : OutputSettings) (d : Size)
    (hw : d.width * s.scale + (d.width - 1) * s.pixel_spacing < U32_MOD)
    (hh : d.height * s.scale + (d.height - 1) * s.pixel_spacing < U32_MOD) :
    s.framebuffer_size d =
      ⟨d.width * s.scale + (d.width - 1) * s.pixel_spacing,
       d.height * s.scale + (d.height - 1) * s.pixel_spacing⟩ := by
  have hM : U32_MOD = 4294967296 := rfl
  rw [hM] at hw hh
  simp only [OutputSettings.framebuffer_size, hM]
  rw [Size.mk.injEq]
  constructor <;> omega

/-- Witness for C6 at a 128×64 display with scale 3 and spacing 1. -/
theorem C6_witness :
    OutputSettings.framebuffer_size ⟨3, 1, BinaryColorTheme.Default, 60⟩ ⟨128, 64⟩ =
      ⟨511, 255⟩ :=
  C6_framebuffer_size ⟨3, 1, BinaryColorTheme.Default, 60⟩ ⟨128, 64⟩
    (by decide) (by decide)

/-- Claim C9: `OutputSettingsBuilder::scale(s)` panics exactly when
`s == 0`; after any sequence of successful setter calls starting from
`new()`, `build()` yields a scale of at least 1; and a never-set scale
defaults to 1. -/
theorem C9_scale_validation :
    (∀ (b : OutputSettingsBuilder) (s : Nat),
        (∃ e, b.setScale s = .error e) ↔ s = 0) ∧
    (∀ (ops : List BuilderOp) (b : OutputSettingsBuilder),
        applyOps OutputSettingsBuilder.new ops = .ok b → 1 ≤ b.build.scale) ∧
    OutputSettingsBuilder.new.build.scale = 1 := by
  refine ⟨?_, ?_, rfl⟩
  · intro b s
    constructor
    · rintro ⟨e, he⟩
      by_contra hs
      simp [OutputSettingsBuilder.setScale, Nat.pos_of_ne_zero hs] at he
    · rintro rfl
      exact ⟨_, rfl⟩
  · intro ops b h
    have hinv := scaleInv_applyOps scaleInv_new h
    simp only [OutputSettingsBuilder.build]
    cases hb : b.scale with
    | none => simp
    | some v => simpa using hinv v hb

/-- Witness for C9: `scale(0)` errors on a fresh builder, and the
sequence `[theme(LcdGreen)]` builds with a scale of at least 1. -/
theorem C9_witness :
    (∃ e, OutputSettingsBuilder.new.setScale 0 = .error e) ∧
    1 ≤ (OutputSettingsBuilder.new.setTheme BinaryColorTheme.LcdGreen).build.scale :=
  ⟨(C9_scale_validation.1 OutputSettingsBuilder.new 0).2 rfl,
   C9_scale_validation.2.1 [BuilderOp.opTheme BinaryColorTheme.LcdGreen] _ rfl⟩

/-- Claim C10: `theme(t)` stores the theme, sets `scale` to 3 and
`pixel_spacing` to 1 only when they are still unset (previously set values
are preserved); in particular `new().theme(t).build()` yields scale 3 and
pixel spacing 1, while the bare build defaults are 1 and 0. -/
theorem C10_theme_sets_scale_spacing :
    (∀ (b : OutputSettingsBuilder) (t : BinaryColorTheme),
      (b.setTheme t).theme = t ∧
      (b.setTheme t).scale = (if b.scale = none then some 3 else b.scale) ∧
      (b.setTheme t).pixel_spacing =
        (if b.pixel_spacing = none then some 1 else b.pixel_spacing)) ∧
    (∀ t : BinaryColorTheme,
      (OutputSettingsBuilder.new.setTheme t).build.scale = 3 ∧
      (OutputSettingsBuilder.new.setTheme t).build.pixel_spacing = 1) ∧
    OutputSettingsBuilder.new.build.scale = 1 ∧
    OutputSettingsBuilder.new.build.pixel_spacing = 0 := by
  refine ⟨?_, fun t => ⟨rfl, rfl⟩, rfl, rfl⟩
  intro b t
  refine ⟨rfl, ?_, ?_⟩
  · cases h : b.scale <;> simp [OutputSettingsBuilder.setTheme, h]
  · cases h : b.pixel_spacing <;> simp [OutputSettingsBuilder.setTheme, h]

theorem lor_mul_pow_eq_add {a b n : Nat} (hb : b < 2 ^ n) :
    a * 2 ^ n ||| b = a * 2 ^ n + b := by
  apply Nat.eq_of_testBit_eq
  intro i
  rw [Nat.testBit_lor, Nat.mul_comm a (2 ^ n), Nat.testBit_mul_pow_two_add a hb i]
  have hA : (2 ^ n * a).testBit i = if i < n then false else a.testBit (i - n) := by
    have h0 : (0 : Nat) < 2 ^ n := Nat.two_pow_pos n
    have := Nat.testBit_mul_pow_two_add a h0 i
    simpa [Nat.zero_testBit] using this
  rw [hA]
  by_cases hi : i < n
  · simp [hi]
  · have hbi : b.testBit i = false :=
      Nat.testBit_lt_two_pow
        (lt_of_lt_of_le hb (Nat.pow_le_pow_right (by omega) (by omega)))
    simp [hi, hbi]

theorem packChunkVal_lt (bits_per_pixel : Nat) (chunk : List Nat)
    (hvalid : ∀ p ∈ chunk, p < 2 ^ bits_per_pixel) :
    packChunkVal bits_per_pixel chunk < 2 ^ (bits_per_pixel * chunk.length) := by
  induction chunk with
  | nil => simp [packChunkVal]
  | cons p rest ih =>
    have hp := hvalid p (List.mem_cons_self ..)
    have hrest := ih (fun q hq => hvalid q (List.mem_cons_of_mem _ hq))
    simp only [packChunkVal, List.length_cons]
    have hexp : bits_per_pixel * (rest.length + 1) =
        bits_per_pixel * rest.length + bits_per_pixel := by ring
    rw [hexp, pow_add]
    calc p * 2 ^ (bits_per_pixel * rest.length) + packChunkVal bits_per_pixel rest
        < (p + 1) * 2 ^ (bits_per_pixel * rest.length) := by
          rw [Nat.add_mul, Nat.one_mul]
          omega
      _ ≤ 2 ^ bits_per_pixel * 2 ^ (bits_per_pixel * rest.length) :=
          Nat.mul_le_mul_right _ (by omega)
      _ = 2 ^ (bits_per_pixel * rest.length) * 2 ^ bits_per_pixel := by ring

theorem fold_pack (bits_per_pixel : Nat) (chunk : List Nat) :
    ∀ acc : Nat, (∀ p ∈ chunk, p < 2 ^ bits_per_pixel) →
      (acc + 1) * 2 ^ (bits_per_pixel * chunk.length) ≤ 256 →
      chunk.foldl (fun value pixel => ((value <<< bits_per_pixel) % 256) ||| pixel) acc =
        acc * 2 ^ (bits_per_pixel * chunk.length) + packChunkVal bits_per_pixel chunk := by
  induction chunk with
  | nil =>
    intro acc _ _
    simp [packChunkVal]
  | cons p rest ih =>
    intro acc hvalid hbound
    have hp := hvalid p (List.mem_cons_self ..)
    have h2l : (1 : Nat) ≤ 2 ^ (bits_per_pixel * rest.length) := Nat.one_le_two_pow
    have hlen : bits_per_pixel * (rest.length + 1) =
        bits_per_pixel * rest.length + bits_per_pixel := by ring
    rw [List.length_cons, hlen, pow_add] at hbound
    have hmod : (acc * 2 ^ bits_per_pixel) % 256 = acc * 2 ^ bits_per_pixel := by
      apply Nat.mod_eq_of_lt
      nlinarith [Nat.one_le_two_pow (n := bits_per_pixel)]
    have hbound2 : (acc * 2 ^ bits_per_pixel + p + 1) *
        2 ^ (bits_per_pixel * rest.length) ≤ 256 := by
      have hstep : acc * 2 ^ bits_per_pixel + p + 1 ≤ (acc + 1) * 2 ^ bits_per_pixel := by
        rw [Nat.add_mul, Nat.one_mul]
        omega
      calc (acc * 2 ^ bits_per_pixel + p + 1) * 2 ^ (bits_per_pixel * rest.length)
          ≤ (acc + 1) * 2 ^ bits_per_pixel * 2 ^ (bits_per_pixel * rest.length) :=
            Nat.mul_le_mul_right _ hstep
        _ = (acc + 1) * (2 ^ (bits_per_pixel * rest.length) * 2 ^ bits_per_pixel) := by ring
        _ ≤ 256 := hbound
    rw [List.foldl_cons, Nat.shiftLeft_eq, hmod, lor_mul_pow_eq_add hp,
      ih (acc * 2 ^ bits_per_pixel + p) (fun q hq => hvalid q (List.mem_cons_of_mem _ hq))
        hbound2]
    simp only [packChunkVal, List.length_cons, hlen, pow_add]
    ring

theorem packChunkVal_shift_eq_spec (bits_per_pixel : Nat) (chunk : List Nat) :
    ∀ pixels_per_byte : Nat, chunk.length ≤ pixels_per_byte →
      packChunkVal bits_per_pixel chunk *
          2 ^ (bits_per_pixel * (pixels_per_byte - chunk.length)) =
        packByteSpec bits_per_pixel pixels_per_byte chunk := by
  induction chunk with
  | nil =>
    intro ppb _
    simp [packChunkVal, packByteSpec]
  | cons p rest ih =>
    intro ppb hlen
    rw [List.length_cons] at hlen
    simp only [packChunkVal, packByteSpec, List.length_cons]
    rw [← ih (ppb - 1) (by omega), Nat.add_mul]
    have h1 : ppb - (rest.length + 1) = ppb - 1 - rest.length := by omega
    rw [h1]
    congr 1
    rw [Nat.mul_assoc, ← pow_add, ← Nat.mul_add]
    have h2 : rest.length + (ppb - 1 - rest.length) = ppb - 1 := by omega
    rw [h2]

theorem packByteCode_eq_spec (bits_per_pixel pixels_per_byte : Nat) (chunk : List Nat)
    (hb : 0 < bits_per_pixel) (h8 : bits_per_pixel * pixels_per_byte = 8)
    (hlen : chunk.length ≤ pixels_per_byte)
    (hvalid : ∀ p ∈ chunk, p < 2 ^ bits_per_pixel) :
    packByteCode bits_per_pixel pixels_per_byte chunk =
      packByteSpec bits_per_pixel pixels_per_byte chunk := by
  have hle8 : bits_per_pixel * chunk.length ≤ 8 := by
    calc bits_per_pixel * chunk.length
        ≤ bits_per_pixel * pixels_per_byte := Nat.mul_le_mul_left _ hlen
      _ = 8 := h8
  have hbound0 : (0 + 1) * 2 ^ (bits_per_pixel * chunk.length) ≤ 256 := by
    have := Nat.pow_le_pow_right (show 2 > 0 by omega) hle8
    omega
  have hvlt : packChunkVal bits_per_pixel chunk *
      2 ^ (bits_per_pixel * (pixels_per_byte - chunk.length)) < 256 := by
    have h1 := packChunkVal_lt bits_per_pixel chunk hvalid
    calc packChunkVal bits_per_pixel chunk *
          2 ^ (bits_per_pixel * (pixels_per_byte - chunk.length))
        < 2 ^ (bits_per_pixel * chunk.length) *
            2 ^ (bits_per_pixel * (pixels_per_byte - chunk.length)) :=
          (Nat.mul_lt_mul_right (Nat.two_pow_pos _)).mpr h1
      _ = 2 ^ (bits_per_pixel * chunk.length +
            bits_per_pixel * (pixels_per_byte - chunk.length)) := by rw [pow_add]
      _ = 2 ^ 8 := by
          congr 1
          rw [← Nat.mul_add]
          rw [← h8]
          congr 1
          omega
      _ = 256 := rfl
  unfold packByteCode
  rw [fold_pack bits_per_pixel chunk 0 hvalid hbound0, Nat.zero_mul, Nat.zero_add,
    Nat.shiftLeft_eq, Nat.mod_eq_of_lt hvlt]
  exact packChunkVal_shift_eq_spec bits_per_pixel chunk pixels_per_byte hlen

theorem chunksGo_subset {α : Type} (n : Nat) :
    ∀ (fuel : Nat) (l c : List α), c ∈ chunksGo n fuel l → ∀ x ∈ c, x ∈ l := by
  intro fuel
  induction fuel with
  | zero =>
    intro l c hc
    cases l <;> simp [chunksGo] at hc
  | succ fuel ih =>
    intro l c hc
    cases l with
    | nil => simp [chunksGo] at hc
    | cons a xs =>
      simp only [chunksGo, List.mem_cons] at hc
      rcases hc with rfl | hmem
      · intro z hz
        exact List.take_subset n _ hz
      · intro z hz
        exact List.drop_subset _ _ (ih _ c hmem z hz)

theorem chunksGo_length_le {α : Type} (n : Nat) :
    ∀ (fuel : Nat) (l c : List α), c ∈ chunksGo n fuel l → c.length ≤ n := by
  intro fuel
  induction fuel with
  | zero =>
    intro l c hc
    cases l <;> simp [chunksGo] at hc
  | succ fuel ih =>
    intro l c hc
    cases l with
    | nil => simp [chunksGo] at hc
    | cons a xs =>
      simp only [chunksGo, List.mem_cons] at hc
      rcases hc with rfl | hmem
      · exact List.length_take_le ..
      · exact ih _ c hmem

theorem listChunks_subset {α : Type} (n : Nat) (l c : List α)
    (hc : c ∈ listChunks n l) : ∀ x ∈ c, x ∈ l :=
  chunksGo_subset n l.length l c hc

theorem listChunks_length_le {α : Type} (n : Nat) (l c : List α)
    (hc : c ∈ listChunks n l) : c.length ≤ n :=
  chunksGo_length_le n l.length l c hc

theorem to_bytes_eq_spec (d : SimulatorDisplay Nat) (pixel_to_bytes : Nat → List Nat)
    (bits_per_pixel : Nat) (hb : 0 < bits_per_pixel) (hlt : bits_per_pixel < 8)
    (h8 : bits_per_pixel * (8 / bits_per_pixel) = 8)
    (hvalid : ∀ p ∈ d.pixels, p < 2 ^ bits_per_pixel) :
    d.to_bytes bits_per_pixel pixel_to_bytes =
      ((listChunks d.size.width d.pixels).map (fun row =>
        (listChunks (8 / bits_per_pixel) row).map
          (packByteSpec bits_per_pixel (8 / bits_per_pixel)))).flatten := by
  unfold SimulatorDisplay.to_bytes
  rw [if_neg (by omega)]
  show ((listChunks d.size.width d.pixels).map (fun row =>
      (listChunks (8 / bits_per_pixel) row).map
        (packByteCode bits_per_pixel (8 / bits_per_pixel)))).flatten = _
  congr 1
  apply List.map_congr_left
  intro row hrow
  apply List.map_congr_left
  intro chunk hchunk
  apply packByteCode_eq_spec _ _ _ hb h8 (listChunks_length_le _ _ _ hchunk)
  intro p hp
  exact hvalid p (listChunks_subset _ _ _ hrow p (listChunks_subset _ _ _ hchunk p hp))

/-- Claim C2: serialization is row-major; below 8 bits per pixel, pixels
are packed left-to-right most-significant-pixel-first, a final partial
byte of a row is zero-padded in its low-order bits, and each row starts at
a fresh byte boundary. Concretely, the width-9 1-bit pattern
`[1,0,0,0,0,0,0,1,0]` serializes to `0b10000001, 0b00000000` per row under
all three byte orders, and the asymmetric pattern `[1,1,0,0,0,0,0,1,1]` to
`0b11000001, 0b10000000` (separating MSB-first low-padded packing from the
LSB-first high-padded alternative). Generally: below 8 bits the result is
independent of the per-pixel byte-order function, the per-byte packing
loop equals the place-value specification packer `packByteSpec` (leftmost
pixel most significant, low-order padding bits zero) for every valid
chunk, and the whole serialization equals the per-row, per-chunk
`packByteSpec` pipeline for every display of a valid bit width. -/
theorem C2_packed_serialization :
    (d91.to_be_bytes 1 = [0b10000001, 0b00000000] ∧
     d91.to_le_bytes 1 = [0b10000001, 0b00000000] ∧
     d91.to_ne_bytes 1 = [0b10000001, 0b00000000]) ∧
    (d92.to_be_bytes 1 = [0b10000001, 0b00000000, 0b10000001, 0b00000000] ∧
     d92.to_le_bytes 1 = [0b10000001, 0b00000000, 0b10000001, 0b00000000] ∧
     d92.to_ne_bytes 1 = [0b10000001, 0b00000000, 0b10000001, 0b00000000]) ∧
    (d93.to_be_bytes 1 = [0b11000001, 0b10000000] ∧
     d93.to_le_bytes 1 = [0b11000001, 0b10000000] ∧
     d93.to_ne_bytes 1 = [0b11000001, 0b10000000]) ∧
    (∀ (d : SimulatorDisplay Nat) (bits_per_pixel : Nat) (F G : Nat → List Nat),
      bits_per_pixel < 8 → d.to_bytes bits_per_pixel F = d.to_bytes bits_per_pixel G) ∧
    (∀ (bits_per_pixel pixels_per_byte : Nat) (chunk : List Nat),
      0 < bits_per_pixel → bits_per_pixel * pixels_per_byte = 8 →
      chunk.length ≤ pixels_per_byte → (∀ p ∈ chunk, p < 2 ^ bits_per_pixel) →
      packByteCode bits_per_pixel pixels_per_byte chunk =
        packByteSpec bits_per_pixel pixels_per_byte chunk) ∧
    (∀ (d : SimulatorDisplay Nat) (F : Nat → List Nat) (bits_per_pixel : Nat),
      0 < bits_per_pixel → bits_per_pixel < 8 →
      bits_per_pixel * (8 / bits_per_pixel) = 8 →
      (∀ p ∈ d.pixels, p < 2 ^ bits_per_pixel) →
      d.to_bytes bits_per_pixel F =
        ((listChunks d.size.width d.pixels).map (fun row =>
          (listChunks (8 / bits_per_pixel) row).map
            (packByteSpec bits_per_pixel (8 / bits_per_pixel)))).flatten) := by
  refine ⟨⟨by decide, by decide, by decide⟩, ⟨by decide, by decide, by decide⟩,
    ⟨by decide, by decide, by decide⟩, ?_, ?_, ?_⟩
  · intro d bits_per_pixel F G h
    unfold SimulatorDisplay.to_bytes
    rw [if_neg (by omega), if_neg (by omega)]
  · intro bits_per_pixel pixels_per_byte chunk hb h8 hlen hvalid
    exact packByteCode_eq_spec bits_per_pixel pixels_per_byte chunk hb h8 hlen hvalid
  · intro d F bits_per_pixel hb hlt h8 hvalid
    exact to_bytes_eq_spec d F bits_per_pixel hb hlt h8 hvalid

/-- Witness for C2: the refinement to the specification packer, applied to
the asymmetric width-9 1-bit display with the big-endian per-pixel
function (hypotheses discharged by evaluation). -/
theorem C2_witness :
    d93.to_bytes 1 (beBytesOfRaw 1) =
      ((listChunks d93.size.width d93.pixels).map (fun row =>
        (listChunks (8 / 1) row).map (packByteSpec 1 (8 / 1)))).flatten :=
  C2_packed_serialization.2.2.2.2.2 d93 (beBytesOfRaw 1) 1 (by decide) (by decide)
    (by decide) (by decide)

theorem point_to_index_some {C : Type} {d : SimulatorDisplay C} {p : Point} {i : Nat}
    (h : d.point_to_index p = some i) :
    0 ≤ p.x ∧ 0 ≤ p.y ∧ p.x.toNat < d.size.width ∧ p.y.toNat < d.size.height ∧
      i = p.x.toNat + p.y.toNat * d.size.width := by
  unfold SimulatorDisplay.point_to_index at h
  split at h
  · rename_i hc
    cases h
    exact ⟨hc.1, hc.2.1, hc.2.2.1, hc.2.2.2, rfl⟩
  · cases h

theorem point_to_index_lt_length {C : Type} {d : SimulatorDisplay C} {p : Point} {i : Nat}
    (h : d.point_to_index p = some i) (hwf : d.wf) : i < d.pixels.length := by
  obtain ⟨_, _, hx, hy, hi⟩ := point_to_index_some h
  have h1 : i < (p.y.toNat + 1) * d.size.width := by rw [Nat.succ_mul]; omega
  have h2 : (p.y.toNat + 1) * d.size.width ≤ d.size.height * d.size.width :=
    Nat.mul_le_mul_right _ (by omega)
  have h3 : i < d.size.height * d.size.width := lt_of_lt_of_le h1 h2
  rw [hwf, Nat.mul_comm]
  exact h3

theorem point_to_index_inj {C : Type} {d : SimulatorDisplay C} {p q : Point} {i : Nat}
    (hp : d.point_to_index p = some i) (hq : d.point_to_index q = some i) : p = q := by
  obtain ⟨hpx, hpy, hpxw, _, hpi⟩ := point_to_index_some hp
  obtain ⟨hqx, hqy, hqxw, _, hqi⟩ := point_to_index_some hq
  have hw : 0 < d.size.width := lt_of_le_of_lt (Nat.zero_le _) hpxw
  have hx : p.x.toNat = q.x.toNat := by
    have h1 : (p.x.toNat + p.y.toNat * d.size.width) % d.size.width
        = (q.x.toNat + q.y.toNat * d.size.width) % d.size.width := by
      rw [← hpi, ← hqi]
    rwa [Nat.add_mul_mod_self_right, Nat.add_mul_mod_self_right,
      Nat.mod_eq_of_lt hpxw, Nat.mod_eq_of_lt hqxw] at h1
  have hy : p.y.toNat = q.y.toNat := by
    have h1 : (p.x.toNat + p.y.toNat * d.size.width) / d.size.width
        = (q.x.toNat + q.y.toNat * d.size.width) / d.size.width := by
      rw [← hpi, ← hqi]
    rw [Nat.add_mul_div_right _ _ hw, Nat.add_mul_div_right _ _ hw,
      Nat.div_eq_of_lt hpxw, Nat.div_eq_of_lt hqxw] at h1
    omega
  have hxx : p.x = q.x := by omega
  have hyy : p.y = q.y := by omega
  cases p
  cases q
  simp only [Point.mk.injEq]
  exact ⟨hxx, hyy⟩

theorem point_to_index_congr {C : Type} {d : SimulatorDisplay C} {e : SimulatorDisplay C}
    (h : d.size = e.size) (p : Point) : d.point_to_index p = e.point_to_index p := by
  unfold SimulatorDisplay.point_to_index
  rw [h]

theorem draw_iter_size {C : Type} (d : SimulatorDisplay C) (ps : List (Point × C)) :
    (d.draw_iter ps).size = d.size := by
  induction ps generalizing d with
  | nil => rfl
  | cons pc ps ih =>
    show (SimulatorDisplay.draw_iter _ ps).size = _
    cases h : d.point_to_index pc.1 with
    | none => simp only [SimulatorDisplay.draw_iter, List.foldl_cons, h]; exact ih d
    | some i =>
      simp only [SimulatorDisplay.draw_iter, List.foldl_cons, h]
      exact ih _

theorem draw_iter_length {C : Type} (d : SimulatorDisplay C) (ps : List (Point × C)) :
    (d.draw_iter ps).pixels.length = d.pixels.length := by
  induction ps generalizing d with
  | nil => rfl
  | cons pc ps ih =>
    cases h : d.point_to_index pc.1 with
    | none => simp only [SimulatorDisplay.draw_iter, List.foldl_cons, h]; exact ih d
    | some i =>
      have hstep : d.draw_iter (pc :: ps) =
          SimulatorDisplay.draw_iter ⟨d.size, d.pixels.set i pc.2⟩ ps := by
        unfold SimulatorDisplay.draw_iter
        simp only [List.foldl_cons, h]
      rw [hstep, ih]
      exact List.length_set ..

theorem draw_iter_wf {C : Type} {d : SimulatorDisplay C} (ps : List (Point × C))
    (hwf : d.wf) : (d.draw_iter ps).wf := by
  unfold SimulatorDisplay.wf
  rw [draw_iter_length, draw_iter_size, hwf]

/-- Claim C7: pairs passed to the display's `draw_iter` are applied in
iteration order — each in-bounds pair overwrites the stored pixel (last
write wins for duplicates, witnessed by the last element of the filtered
batch), while out-of-bounds pairs alter nothing; a batch of only
out-of-bounds pairs leaves the display entirely unchanged. -/
theorem C7_draw_iter_order {C : Type} (d : SimulatorDisplay C) (ps : List (Point × C))
    (hwf : d.wf) :
    (d.draw_iter ps).size = d.size ∧ (d.draw_iter ps).wf ∧
    (∀ (p : Point) (i : Nat), d.point_to_index p = some i →
      (d.draw_iter ps).get_pixel? p =
        (match (ps.filter fun pc => pc.1 = p).getLast? with
         | some pc => some pc.2
         | none => d.get_pixel? p)) ∧
    ((∀ pc ∈ ps, d.point_to_index pc.1 = none) → d.draw_iter ps = d) := by
  refine ⟨draw_iter_size d ps, draw_iter_wf ps hwf, ?_, ?_⟩
  · intro p i hp
    induction ps using List.reverseRecOn with
    | nil => simp [SimulatorDisplay.draw_iter]
    | append_singleton l pc ih =>
      have hsize : (d.draw_iter l).size = d.size := draw_iter_size d l
      have hidx : (d.draw_iter l).point_to_index p = some i := by
        rw [point_to_index_congr hsize]; exact hp
      have hstep : d.draw_iter (l ++ [pc]) =
          (match (d.draw_iter l).point_to_index pc.1 with
           | some index => ⟨(d.draw_iter l).size, (d.draw_iter l).pixels.set index pc.2⟩
           | none => d.draw_iter l) := by
        unfold SimulatorDisplay.draw_iter
        rw [List.foldl_append]
        rfl
      rw [List.filter_append]
      by_cases hpc : pc.1 = p
      · subst hpc
        have hj : (d.draw_iter l).point_to_index pc.1 = some i := hidx
        rw [hstep, hj]
        have hlen : i < (d.draw_iter l).pixels.length :=
          point_to_index_lt_length hj (draw_iter_wf l hwf)
        have : (SimulatorDisplay.mk (d.draw_iter l).size
            ((d.draw_iter l).pixels.set i pc.2)).get_pixel? pc.1 = some pc.2 := by
          unfold SimulatorDisplay.get_pixel?
          have : (SimulatorDisplay.mk (d.draw_iter l).size
              ((d.draw_iter l).pixels.set i pc.2)).point_to_index pc.1 = some i := by
            rw [point_to_index_congr (e := d.draw_iter l)]
            exacts [hj, rfl]
          rw [this]
          simp [List.getElem?_set, hlen]
        rw [this]
        have hfilter : List.filter (fun x => decide (x.1 = pc.1)) [pc] = [pc] := by
          simp
        rw [hfilter, List.getLast?_concat]
      · have hfilter : List.filter (fun x => decide (x.1 = p)) [pc] = [] := by
          simp [hpc]
        rw [hfilter, List.append_nil]
        cases hj : (d.draw_iter l).point_to_index pc.1 with
        | none =>
          rw [hstep, hj]
          exact ih
        | some j =>
          have hji : j ≠ i := by
            intro hji
            subst hji
            exact hpc (point_to_index_inj hj hidx)
          rw [hstep, hj]
          have hidx2 : (SimulatorDisplay.mk (d.draw_iter l).size
              ((d.draw_iter l).pixels.set j pc.2)).point_to_index p = some i := by
            rw [point_to_index_congr (e := d.draw_iter l)]
            exacts [hidx, rfl]
          rw [← ih]
          unfold SimulatorDisplay.get_pixel?
          rw [hidx2, hidx]
          simp [List.getElem?_set_ne hji]
  · intro hout
    induction ps with
    | nil => rfl
    | cons pc ps ih =>
      show SimulatorDisplay.draw_iter _ ps = d
      have h1 : d.point_to_index pc.1 = none := hout pc (by simp)
      simp only [h1]
      exact ih (fun pc hpc => hout pc (by simp [hpc]))

/-- Witness for C7 on a 2×1 display: two writes to the in-bounds point
`(0,0)` (last write 7 wins) and one out-of-bounds pair. -/
theorem C7_witness :
    (SimulatorDisplay.draw_iter ⟨⟨2, 1⟩, [0, 0]⟩
        [(⟨0, 0⟩, 5), (⟨0, 0⟩, 7), (⟨1, 5⟩, 9)]).get_pixel? ⟨0, 0⟩ =
      (match (([(⟨0, 0⟩, 5), (⟨0, 0⟩, 7), (⟨1, 5⟩, 9)] :
          List (Point × Nat)).filter fun pc => pc.1 = ⟨0, 0⟩).getLast? with
       | some pc => some pc.2
       | none => (SimulatorDisplay.mk ⟨2, 1⟩ [0, 0]).get_pixel? ⟨0, 0⟩) :=
  (C7_draw_iter_order ⟨⟨2, 1⟩, [0, 0]⟩ [(⟨0, 0⟩, 5), (⟨0, 0⟩, 7), (⟨1, 5⟩, 9)]
    (by rfl)).2.2.1 ⟨0, 0⟩ 0 (by rfl)

theorem mapM_option_eq_map {α β : Type} {l : List α} {F : α → Option β} {g : α → β}
    (h : ∀ x ∈ l, F x = some (g x)) : l.mapM F = some (l.map g) := by
  induction l with
  | nil => rfl
  | cons a l ih =>
    rw [List.mapM_cons, h a (List.mem_cons_self a l),
      ih (fun x hx => h x (List.mem_cons_of_mem _ hx))]
    rfl

theorem points_bbox_eq {w h : Nat} :
    Rectangle.points ⟨⟨0, 0⟩, ⟨w, h⟩⟩ =
      ((List.range h).map (fun (iy : Nat) =>
        (List.range w).map (fun (ix : Nat) => Point.mk (ix : Int) (iy : Int)))).flatten := by
  simp [Rectangle.points]

theorem mem_points_bbox {w h : Nat} {p : Point} :
    p ∈ Rectangle.points ⟨⟨0, 0⟩, ⟨w, h⟩⟩ ↔
      ∃ x y : Nat, x < w ∧ y < h ∧ p = ⟨(x : Int), (y : Int)⟩ := by
  rw [points_bbox_eq]
  simp only [List.mem_flatten, List.mem_map, List.mem_range]
  constructor
  · rintro ⟨row, ⟨iy, hiy, rfl⟩, hmem⟩
    simp only [List.mem_map, List.mem_range] at hmem
    obtain ⟨ix, hix, rfl⟩ := hmem
    exact ⟨ix, iy, hix, hiy, rfl⟩
  · rintro ⟨x, y, hx, hy, rfl⟩
    refine ⟨_, ⟨y, hy, rfl⟩, ?_⟩
    simp only [List.mem_map, List.mem_range]
    exact ⟨x, hx, rfl⟩

theorem flatten_uniform_getElem {α : Type} {rows : List (List α)} {w : Nat}
    (hw : ∀ r ∈ rows, r.length = w) {y x : Nat} (hx : x < w) {row : List α}
    (hrow : rows[y]? = some row) :
    rows.flatten[y * w + x]? = row[x]? := by
  induction rows generalizing y with
  | nil => simp at hrow
  | cons r rows ih =>
    have hr : r.length = w := hw r (List.mem_cons_self r rows)
    cases y with
    | zero =>
      rw [List.getElem?_cons_zero] at hrow
      cases hrow
      rw [List.flatten_cons, List.getElem?_append, if_pos (by omega)]
      congr 1
      omega
    | succ y =>
      rw [List.getElem?_cons_succ] at hrow
      rw [List.flatten_cons, Nat.succ_mul, List.getElem?_append, if_neg (by omega)]
      have harith : y * w + w + x - r.length = y * w + x := by omega
      rw [harith]
      exact ih (fun r hr => hw r (List.mem_cons_of_mem _ hr)) hrow

theorem points_bbox_length {w h : Nat} :
    (Rectangle.points ⟨⟨0, 0⟩, ⟨w, h⟩⟩).length = h * w := by
  rw [points_bbox_eq, List.length_flatten, List.map_map]
  have : (List.length ∘ fun (iy : Nat) =>
      (List.range w).map (fun (ix : Nat) => Point.mk (ix : Int) (iy : Int))) =
      fun _ => w := funext fun iy => by simp
  rw [this]
  apply List.sum_eq_card_nsmul ((List.range h).map fun _ => w) w ?_ |>.trans
  · rw [List.length_map, List.length_range, smul_eq_mul]
  · intro a ha
    simp only [List.mem_map] at ha
    obtain ⟨_, _, rfl⟩ := ha
    rfl

theorem points_bbox_getElem {w h x y : Nat} (hx : x < w) (hy : y < h) :
    (Rectangle.points ⟨⟨0, 0⟩, ⟨w, h⟩⟩)[y * w + x]? = some ⟨(x : Int), (y : Int)⟩ := by
  rw [points_bbox_eq]
  have hwAll : ∀ r ∈ (List.range h).map (fun (iy : Nat) =>
      (List.range w).map (fun (ix : Nat) => Point.mk (ix : Int) (iy : Int))), r.length = w := by
    intro r hr
    simp only [List.mem_map, List.mem_range] at hr
    obtain ⟨iy, _, rfl⟩ := hr
    simp
  have hrow : ((List.range h).map (fun (iy : Nat) => (List.range w).map (fun (ix : Nat) =>
      Point.mk (ix : Int) (iy : Int))))[y]? =
      some ((List.range w).map (fun (ix : Nat) => Point.mk (ix : Int) (y : Int))) := by
    rw [List.getElem?_map, List.getElem?_range hy]
    rfl
  rw [flatten_uniform_getElem hwAll hx hrow, List.getElem?_map, List.getElem?_range hx]
  rfl

theorem get_pixel_eq {C : Type} {d : SimulatorDisplay C} {x y : Nat}
    (hx : x < d.size.width) (hy : y < d.size.height) :
    d.get_pixel? ⟨(x : Int), (y : Int)⟩ = d.pixels[x + y * d.size.width]? := by
  unfold SimulatorDisplay.get_pixel? SimulatorDisplay.point_to_index
  rw [if_pos (by simp [hx, hy])]
  simp

theorem index_lt {w h x y : Nat} (hx : x < w) (hy : y < h) : x + y * w < w * h := by
  have h1 : x + y * w < (y + 1) * w := by rw [Nat.succ_mul]; omega
  have h2 : (y + 1) * w ≤ h * w := Nat.mul_le_mul_right _ (by omega)
  rw [Nat.mul_comm w h]
  exact lt_of_lt_of_le h1 h2

theorem get_pixel_isSome {C : Type} {d : SimulatorDisplay C} {x y : Nat}
    (hwf : d.wf) (hx : x < d.size.width) (hy : y < d.size.height) :
    ∃ c, d.get_pixel? ⟨(x : Int), (y : Int)⟩ = some c := by
  rw [get_pixel_eq hx hy]
  have hlt : x + y * d.size.width < d.pixels.length := by
    rw [hwf]
    exact index_lt hx hy
  exact ⟨_, List.getElem?_eq_getElem hlt⟩

theorem diff_eq {C : Type} [DecidableEq C] {a b : SimulatorDisplay C}
    (hsize : a.size = b.size) (hwa : a.wf) (hwb : b.wf) :
    a.diff b =
      (if (a.bounding_box.points.map
            (fun p => decide (a.get_pixel? p ≠ b.get_pixel? p))).any id
       then .ok (some ⟨a.size, a.bounding_box.points.map
            (fun p => decide (a.get_pixel? p ≠ b.get_pixel? p))⟩)
       else .ok none) := by
  unfold SimulatorDisplay.diff
  rw [if_pos hsize]
  have hmap : a.bounding_box.points.mapM (fun p =>
      (a.get_pixel? p).bind (fun pa =>
        (b.get_pixel? p).map (fun pb => decide (pa ≠ pb)))) =
      some (a.bounding_box.points.map
        (fun p => decide (a.get_pixel? p ≠ b.get_pixel? p))) := by
    apply mapM_option_eq_map
    intro p hp
    obtain ⟨x, y, hx, hy, rfl⟩ := mem_points_bbox.mp hp
    obtain ⟨pa, hpa⟩ := get_pixel_isSome hwa hx hy
    obtain ⟨pb, hpb⟩ := get_pixel_isSome hwb (by rw [← hsize]; exact hx)
      (by rw [← hsize]; exact hy)
    rw [hpa, hpb]
    simp
  rw [hmap]

/-- Claim C5: for equal-size, well-formed displays `a` and `b`, `diff`
returns the no-difference sentinel exactly when every in-bounds pixel
agrees, and otherwise a monochrome display of the same size whose pixel at
`p` is on exactly when `a` and `b` differ at `p`; `a.diff a` is always the
sentinel; mismatched sizes fail fatally (modelled as `Except.error`). -/
theorem C5_diff_characterization {C : Type} [DecidableEq C] (a b : SimulatorDisplay C)
    (hwa : a.wf) (hwb : b.wf) :
    (a.size = b.size →
      ((a.diff b = .ok none ↔
          ∀ x y : Nat, x < a.size.width → y < a.size.height →
            a.get_pixel? ⟨(x : Int), (y : Int)⟩ = b.get_pixel? ⟨(x : Int), (y : Int)⟩) ∧
       (∀ m, a.diff b = .ok (some m) →
          m.size = a.size ∧ m.wf ∧
          ∀ x y : Nat, x < a.size.width → y < a.size.height →
            m.get_pixel? ⟨(x : Int), (y : Int)⟩ =
              some (decide (a.get_pixel? ⟨(x : Int), (y : Int)⟩ ≠
                b.get_pixel? ⟨(x : Int), (y : Int)⟩))))) ∧
    a.diff a = .ok none ∧
    (a.size ≠ b.size → ∃ e, a.diff b = .error e) := by
  refine ⟨?_, ?_, ?_⟩
  · intro hsize
    constructor
    · rw [diff_eq hsize hwa hwb]
      constructor
      · intro hok
        by_cases hany : (a.bounding_box.points.map
            (fun p => decide (a.get_pixel? p ≠ b.get_pixel? p))).any id
        · rw [if_pos hany] at hok
          simp at hok
        · intro x y hx hy
          have hmem : Point.mk (x : Int) (y : Int) ∈ a.bounding_box.points :=
            mem_points_bbox.mpr ⟨x, y, hx, hy, rfl⟩
          have hfalse := List.any_eq_false.mp (Bool.eq_false_iff.mpr hany)
            _ (List.mem_map_of_mem _ hmem)
          simp only [id, decide_eq_true_eq] at hfalse
          exact not_not.mp hfalse
      · intro hall
        have hany : (a.bounding_box.points.map
            (fun p => decide (a.get_pixel? p ≠ b.get_pixel? p))).any id = false := by
          apply List.any_eq_false.mpr
          intro xb hxb
          simp only [List.mem_map] at hxb
          obtain ⟨p, hpmem, rfl⟩ := hxb
          obtain ⟨x, y, hx, hy, rfl⟩ := mem_points_bbox.mp hpmem
          simp [hall x y hx hy]
        rw [hany]
        simp
    · intro m hm
      rw [diff_eq hsize hwa hwb] at hm
      by_cases hany : (a.bounding_box.points.map
          (fun p => decide (a.get_pixel? p ≠ b.get_pixel? p))).any id
      · rw [if_pos hany] at hm
        simp only [Except.ok.injEq, Option.some.injEq] at hm
        subst hm
        refine ⟨rfl, ?_, ?_⟩
        · show (List.map _ _).length = _
          rw [List.length_map]
          show (Rectangle.points ⟨⟨0, 0⟩, a.size⟩).length = _
          rw [points_bbox_length, Nat.mul_comm]
        · intro x y hx hy
          have hm : (SimulatorDisplay.mk a.size
              (a.bounding_box.points.map
                (fun p => decide (a.get_pixel? p ≠ b.get_pixel? p)))).get_pixel?
                ⟨(x : Int), (y : Int)⟩ =
              (a.bounding_box.points.map
                (fun p => decide (a.get_pixel? p ≠ b.get_pixel? p)))[x + y * a.size.width]? :=
            get_pixel_eq hx hy
          rw [hm, List.getElem?_map, Nat.add_comm]
          show Option.map _ (Rectangle.points ⟨⟨0, 0⟩, a.size⟩)[y * a.size.width + x]? = _
          rw [points_bbox_getElem hx hy]
          rfl
      · rw [if_neg hany] at hm
        simp at hm
  · rw [diff_eq rfl hwa hwa]
    have hany : (a.bounding_box.points.map
        (fun p => decide (a.get_pixel? p ≠ a.get_pixel? p))).any id = false := by
      apply List.any_eq_false.mpr
      intro xb hxb
      simp only [List.mem_map] at hxb
      obtain ⟨p, _, rfl⟩ := hxb
      simp
    rw [hany]
    simp
  · intro hne
    unfold SimulatorDisplay.diff
    rw [if_neg hne]
    exact ⟨_, rfl⟩

/-- Witness for C5: a 1×1 display diffed against itself yields the
no-difference sentinel. -/
theorem C5_witness :
    SimulatorDisplay.diff ⟨⟨1, 1⟩, [0]⟩ ⟨⟨1, 1⟩, [0]⟩ = .ok none :=
  (C5_diff_characterization ⟨⟨1, 1⟩, [0]⟩ ⟨⟨1, 1⟩, [0]⟩ (by rfl) (by rfl)).2.1

/-- Claim C1, evaluation at the failing input: a 2×1 all-white display
rendered with scale 1, pixel spacing 1, theme `Default` at position
`(0,0)`. The output raster is 3×1 (`framebuffer_size` includes the
spacing), but the `scale == 1` fast path draws source pixel `(1,0)` at
output `x = 1` — the gutter column the claim requires to stay at the
background color — and leaves `x = 2`, the claimed block corner
`1 * (scale + spacing) = 2`, at the background color. -/
theorem C1_scale_one_ignores_spacing :
    s11.framebuffer_size d21.size = ⟨3, 1⟩ ∧
    ((OutputImage.new ⟨3, 1⟩).draw_display d21 ⟨0, 0⟩ s11).map
        (fun out => (out.readPixel 0 0, out.readPixel 1 0, out.readPixel 2 0)) =
      some (Rgb888.WHITE, Rgb888.WHITE, Rgb888.BLACK) :=
  ⟨rfl, rfl⟩

theorem writeSlice_append (d : ByteBuf) (s : Nat) (bs cs : List Nat) :
    writeSlice d s (bs ++ cs) = writeSlice (writeSlice d s bs) (s + bs.length) cs := by
  funext i
  unfold writeSlice
  simp only [List.length_append, List.getD_eq_getElem?_getD, List.getElem?_append]
  have harith : i - s - bs.length = i - (s + bs.length) := by omega
  split_ifs <;> first
    | rfl
    | omega
    | (rw [harith])

theorem writeSlice_replicate (d : ByteBuf) (s : Nat) (bs : List Nat) (w : Nat) :
    writeSlice d s ((List.replicate w bs).flatten) =
      (List.range w).foldl (fun d k => writeSlice d (s + bs.length * k) bs) d := by
  induction w generalizing d s with
  | zero =>
    funext i
    simp [writeSlice]
  | succ w ih =>
    rw [List.replicate_succ, List.flatten_cons, writeSlice_append, ih,
      List.range_succ_eq_map, List.foldl_cons, List.foldl_map]
    simp only [Nat.mul_zero, Nat.add_zero]
    apply List.foldl_ext
    intro acc k hk
    have harith : s + bs.length * (k + 1) = s + bs.length + bs.length * k := by
      rw [Nat.mul_succ]
      omega
    rw [harith]

theorem drawStep_mk (sz : Size) (d : ByteBuf) (a b : Int) (c : Rgb888)
    (hx : 0 ≤ a) (hy : 0 ≤ b) (hxw : a.toNat < sz.width) (hyh : b.toNat < sz.height) :
    drawStep sz d (Point.mk a b, c) =
      writeSlice d ((a.toNat + b.toNat * sz.width) * 3) c.to_be_bytes := by
  simp only [drawStep]
  rw [if_pos ⟨hx, hy, hxw, hyh⟩]

theorem fill_row_eq (sz : Size) (color : Rgb888) (xs y : Int) (w : Nat) (d : ByteBuf)
    (hxs : 0 ≤ xs) (hy : 0 ≤ y) (hw : xs.toNat + w ≤ sz.width) (hh : y.toNat < sz.height) :
    (List.range w).foldl (fun d k =>
        writeSlice d (sz.width * 3 * y.toNat + xs.toNat * 3 + 3 * k) color.to_be_bytes) d =
      ((List.range w).map (fun (ix : Nat) => (Point.mk (xs + (ix : Int)) y, color))).foldl
        (drawStep sz) d := by
  rw [List.foldl_map]
  apply List.foldl_ext
  intro acc ix hix
  rw [List.mem_range] at hix
  rw [drawStep_mk sz acc (xs + (ix : Int)) y color (by omega) (by omega) (by omega) (by omega)]
  have h1 : (xs + (ix : Int)).toNat = xs.toNat + ix := by omega
  rw [h1]
  have h2 : (xs.toNat + ix + y.toNat * sz.width) * 3 =
      sz.width * 3 * y.toNat + xs.toNat * 3 + 3 * ix := by ring
  rw [h2]

theorem intersection_bbox_cases (area : Rectangle) (s : Size) :
    ((area.intersection ⟨⟨0, 0⟩, s⟩).size.width = 0 ∨
     (area.intersection ⟨⟨0, 0⟩, s⟩).size.height = 0) ∨
    (0 ≤ (area.intersection ⟨⟨0, 0⟩, s⟩).top_left.x ∧
     0 ≤ (area.intersection ⟨⟨0, 0⟩, s⟩).top_left.y ∧
     (area.intersection ⟨⟨0, 0⟩, s⟩).top_left.x.toNat +
       (area.intersection ⟨⟨0, 0⟩, s⟩).size.width ≤ s.width ∧
     (area.intersection ⟨⟨0, 0⟩, s⟩).top_left.y.toNat +
       (area.intersection ⟨⟨0, 0⟩, s⟩).size.height ≤ s.height) := by
  unfold Rectangle.intersection
  split
  · rename_i br1 br2 heq1 heq2
    unfold Rectangle.bottom_right at heq1 heq2
    split at heq1
    · cases heq1
    · split at heq2
      · cases heq2
      · rename_i hne1 hne2
        rw [Option.some.injEq] at heq1 heq2
        subst heq1
        subst heq2
        simp only [Point.component_max, Point.component_min]
        split_ifs with h3
        · right
          simp only [Point.component_max, Point.component_min] at h3
          refine ⟨?_, ?_, ?_, ?_⟩ <;> simp only [] <;> omega
        · left
          left
          rfl
  · left
    left
    rfl

theorem fill_data_eq (sz : Size) (d : ByteBuf) (a : Rectangle) (color : Rgb888)
    (hcase : (a.size.width = 0 ∨ a.size.height = 0) ∨
      (0 ≤ a.top_left.x ∧ 0 ≤ a.top_left.y ∧
       a.top_left.x.toNat + a.size.width ≤ sz.width ∧
       a.top_left.y.toNat + a.size.height ≤ sz.height)) :
    a.rows.foldl (fun d y =>
        (List.range a.size.width).foldl
          (fun d k =>
            writeSlice d (sz.width * 3 * y.toNat + a.top_left.x.toNat * 3 + 3 * k)
              color.to_be_bytes) d) d =
      (a.points.map (fun p => (p, color))).foldl (drawStep sz) d := by
  unfold Rectangle.rows Rectangle.points
  rw [List.map_flatten, List.foldl_flatten, List.map_map, List.foldl_map, List.foldl_map]
  apply List.foldl_ext
  intro acc iy hiy
  rw [List.mem_range] at hiy
  rcases hcase with hzero | ⟨hx0, hy0, hxw, hyh⟩
  · rcases hzero with hw0 | hh0
    · rw [hw0]
      simp
    · rw [hh0] at hiy
      omega
  · simp only [Function.comp_apply, List.map_map]
    exact fill_row_eq sz color a.top_left.x (a.top_left.y + (iy : Int)) a.size.width acc
      hx0 (by omega) hxw (by omega)

theorem fill_large_eq (sz : Size) (a : Rectangle) (color : Rgb888) (d : ByteBuf) :
    a.rows.foldl (fun d y =>
        writeSlice d (sz.width * 3 * y.toNat + a.top_left.x.toNat * 3)
          ((List.replicate a.size.width color.to_be_bytes).flatten)) d =
      a.rows.foldl (fun d y =>
        (List.range a.size.width).foldl
          (fun d k =>
            writeSlice d (sz.width * 3 * y.toNat + a.top_left.x.toNat * 3 + 3 * k)
              color.to_be_bytes) d) d := by
  apply List.foldl_ext
  intro acc y hy
  rw [writeSlice_replicate]
  rfl

/-- Claim C4: `OutputImage<Rgb888>::fill_solid(area, color)` produces
exactly the buffer obtained by writing `color` through `draw_iter` to
every point of the area clipped to the image bounds, for every image, area
and color — in particular the ≥16×16 bulk row-buffer path and the
per-pixel chunk path yield identical bytes. -/
theorem C4_fill_solid_eq_draw_iter (img : OutputImage) (area : Rectangle) (color : Rgb888) :
    img.fill_solid area color =
      img.draw_iter ((area.intersection img.bounding_box).points.map (fun p => (p, color))) := by
  have hcase := intersection_bbox_cases area img.size
  simp only [OutputImage.fill_solid, OutputImage.draw_iter]
  congr 1
  split_ifs with hlarge
  · rw [fill_large_eq]
    exact fill_data_eq img.size img.data (area.intersection img.bounding_box) color hcase
  · exact fill_data_eq img.size img.data (area.intersection img.bounding_box) color hcase

end EgSim
